import Mathlib

/-!
Verification of the log acquisition, parsing and correlation engine of
`ha-tools` (files `ha_tools/commands/logs.py` and `ha_tools/lib/rest_api.py`),
as a shallow embedding in Lean 4.

Modelling conventions:
* Python strings are `List Char` (the inputs of interest are ASCII, where
  Python's `str.lower`/`str.upper`/`\w`/`\s` agree with the Lean `Char`
  primitives used here).
* Python float scores (`0.2`, `0.5`, `1.0`, `3.0`) are modelled as exact
  rationals; the claims under scrutiny only compare the code's arithmetic
  with the same arithmetic, so the number representation is irrelevant.
* `datetime` values are modelled by a record of calendar fields; comparison
  of two valid datetimes is lexicographic on the fields, realised through a
  monotone numeric key.
* Timestamps flowing through the correlation scorer are modelled as rational
  epoch seconds (`datetime` subtraction `total_seconds`).
* Fallible collaborators (the WebSocket source, the plain endpoint, per-file
  reads, the time-series store) are modelled as `Except Unit`-valued oracles;
  a caught Python exception is an `Except.error`.
* Python `for`-loops that append to a result list are translated to
  structural recursion emitting the same list in the same order.
-/

/-! ### Character and string primitives -/

/-- Python regex `\w` (`[a-zA-Z0-9_]`) on ASCII text. -/
def wordChar (c : Char) : Bool :=
  c.isAlphanum || c == '_'

/-- Python regex `\s` / `str.strip` whitespace on ASCII text. -/
def pySpace (c : Char) : Bool :=
  c == ' ' || c == '\t' || c == '\n' || c == '\r' || c == '\x0b' || c == '\x0c'

/-- Python `str.strip()`: drop whitespace from both ends. -/
def stripPy (cs : List Char) : List Char :=
  ((cs.dropWhile pySpace).reverse.dropWhile pySpace).reverse

/-- Python `str.lower()` (ASCII). -/
def lowerStr (cs : List Char) : List Char :=
  cs.map Char.toLower

/-- Python `str.upper()` (ASCII). -/
def upperStr (cs : List Char) : List Char :=
  cs.map Char.toUpper

/-- Boolean list-prefix test. -/
def listPrefixB : List Char → List Char → Bool
  | [], _ => true
  | _ :: _, [] => false
  | a :: as, b :: bs => a == b && listPrefixB as bs

/-- Python `pat in txt` substring containment. -/
def containsSubB (pat : List Char) : List Char → Bool
  | [] => listPrefixB pat []
  | c :: cs => listPrefixB pat (c :: cs) || containsSubB pat cs

/-- Case-insensitive list-prefix test (Python `re.IGNORECASE`, ASCII). -/
def listPrefixCiB : List Char → List Char → Bool
  | [], _ => true
  | _ :: _, [] => false
  | a :: as, b :: bs => a.toLower == b.toLower && listPrefixCiB as bs

/-! ### Datetimes

`datetime.fromisoformat` values.  Only the fields matched by the source's
timestamp regexes are represented; comparison of two valid datetimes is
lexicographic, realised by the monotone key below (fields are within range
for every value produced by `parse_iso`). -/

structure DateTime where
  year : Nat
  month : Nat
  day : Nat
  hour : Nat
  minute : Nat
  second : Nat
  deriving DecidableEq, Repr

/-- Monotone encoding of the (valid) calendar fields; `key d < key e` iff
`d` is strictly earlier than `e`, matching Python `datetime` comparison. -/
def DateTime.key (d : DateTime) : Nat :=
  ((((d.year * 13 + d.month) * 32 + d.day) * 24 + d.hour) * 60 + d.minute) * 60
    + d.second

/-- Gregorian leap-year rule used by `datetime`. -/
def isLeapYear (y : Nat) : Bool :=
  y % 4 == 0 && (y % 100 != 0 || y % 400 == 0)

/-- Days in a month, as validated by `datetime`. -/
def daysInMonth (y m : Nat) : Nat :=
  if m == 2 then (if isLeapYear y then 29 else 28)
  else if m == 4 || m == 6 || m == 9 || m == 11 then 30
  else 31

/-- Digit character to its value. -/
def digitVal (c : Char) : Nat :=
  c.toNat - 48

/-- Two decimal digits to a number. -/
def twoDigits (a b : Char) : Nat :=
  digitVal a * 10 + digitVal b

/-- Range validation performed by `datetime.fromisoformat` on the parsed
fields (`MINYEAR = 1`, `MAXYEAR = 9999`). -/
def validDateTime (d : DateTime) : Bool :=
  1 ≤ d.year && d.year ≤ 9999 && 1 ≤ d.month && d.month ≤ 12 &&
  1 ≤ d.day && d.day ≤ daysInMonth d.year d.month &&
  d.hour ≤ 23 && d.minute ≤ 59 && d.second ≤ 59

/-- Check that a character list consists of digits only. -/
def allDigits (cs : List Char) : Bool :=
  cs.all Char.isDigit

/-- Model of `datetime.fromisoformat` on the canonical `YYYY-MM-DDTHH:MM:SS[.ffffff]`
shape (the only shape the source ever feeds it, after its
`.replace(" ", "T")`).  `none` models a raised `ValueError`.  The optional
fractional-second digits are accepted and discarded: no claim under
scrutiny depends on sub-second precision. -/
def parse_iso (cs : List Char) : Option DateTime :=
  match cs with
  | y1 :: y2 :: y3 :: y4 :: '-' :: m1 :: m2 :: '-' :: d1 :: d2 :: 'T' ::
      h1 :: h2 :: ':' :: n1 :: n2 :: ':' :: s1 :: s2 :: rest =>
    if allDigits [y1, y2, y3, y4, m1, m2, d1, d2, h1, h2, n1, n2, s1, s2] then
      let frOk := match rest with
        | [] => true
        | '.' :: ds => !ds.isEmpty && ds.length ≤ 6 && allDigits ds
        | _ => false
      if frOk then
        let d : DateTime :=
          { year := twoDigits y1 y2 * 100 + twoDigits y3 y4
            month := twoDigits m1 m2
            day := twoDigits d1 d2
            hour := twoDigits h1 h2
            minute := twoDigits n1 n2
            second := twoDigits s1 s2 }
        if validDateTime d then some d else none
      else none
    else none
  | _ => none

/-! ### Correlation scorer: `_calculate_correlation_strength`
(`ha_tools/commands/logs.py`) -/

/-- A state-change record returned by the time-series store.  The code reads
`change.get("last_changed")`, accepts a native datetime or parses an ISO
string, and skips the record when the key is missing/falsy or the parse
raises `ValueError`; `lastChanged = none` models every skipped shape, and a
parsed value is its epoch time in seconds. -/
structure StateChange where
  lastChanged : Option ℚ
  deriving DecidableEq, Repr

/-- Embedding of `_calculate_correlation_strength(error_time, state_changes)`. -/
def calculate_correlation_strength (error_time : ℚ)
    (state_changes : List StateChange) : ℚ :=
  if state_changes.isEmpty then 0
  else
    let strength := state_changes.foldl
      (fun s change =>
        match change.lastChanged with
        | none => s
        | some change_time =>
          let time_diff := |error_time - change_time|
          if time_diff < 60 then s + 1
          else if time_diff < 300 then s + 1/2
          else if time_diff < 600 then s + 1/5
          else s)
      0
    min strength 3

/-- The contribution of a single state-change record as stated by the spec
sentence behind claim C1 (refinement side, phrased from the spec's words). -/
def specContribution (t : ℚ) (change : StateChange) : ℚ :=
  match change.lastChanged with
  | none => 0
  | some c =>
    if |t - c| < 60 then 1
    else if 60 ≤ |t - c| ∧ |t - c| < 300 then 1/2
    else if 300 ≤ |t - c| ∧ |t - c| < 600 then 1/5
    else 0

/-- The spec's total: sum of the per-record contributions. -/
def specStrengthSum (t : ℚ) (changes : List StateChange) : ℚ :=
  (changes.map (specContribution t)).sum

/-! ### Entity reference extractor: `_extract_entity_references`
(`ha_tools/commands/logs.py`)

The five `re.findall` patterns are implemented directly.  For each pattern,
`re.findall` scans left to right, emits the leftmost match (the capture
group for the `entity\s+(...)` pattern), resumes after the matched text,
and advances one character on failure.  For these patterns the usual
greedy/backtracking semantics collapse to the deterministic matchers below:
a character class run is maximal, and each literal/`.` must follow it
immediately (the run's follower is never a class member). -/

/-- Match `[a-zA-Z0-9_]+\.[a-zA-Z0-9_]+` at the current position; returns
the matched text and the remaining input. -/
def matchDotted (cs : List Char) : Option (List Char × List Char) :=
  let r1 := cs.takeWhile wordChar
  if r1.isEmpty then none
  else
    match cs.dropWhile wordChar with
    | '.' :: rest2 =>
      let r2 := rest2.takeWhile wordChar
      if r2.isEmpty then none
      else some (r1 ++ '.' :: r2, rest2.dropWhile wordChar)
    | _ => none

/-- Match `entity\s+([a-zA-Z0-9_]+\.[a-zA-Z0-9_]+)` (IGNORECASE) at the
current position; returns the capture group, as `re.findall` does for a
single-group pattern. -/
def matchEntityKw (cs : List Char) : Option (List Char × List Char) :=
  if listPrefixCiB ( "entity".toList) cs then
    let afterKw := cs.drop 6
    if (afterKw.takeWhile pySpace).isEmpty then none
    else matchDotted (afterKw.dropWhile pySpace)
  else none

/-- Match `lit` (a literal such as `sensor.`, IGNORECASE) followed by
`[a-zA-Z0-9_]+` at the current position. -/
def matchLitDom (lit : List Char) (cs : List Char) : Option (List Char × List Char) :=
  if listPrefixCiB lit cs then
    let rest := cs.drop lit.length
    let r := rest.takeWhile wordChar
    if r.isEmpty then none
    else some (cs.take lit.length ++ r, rest.dropWhile wordChar)
  else none

/-- The `re.findall` driver: try the matcher at each position, resume after a
match.  `fuel` is the input length (every matcher consumes at least one
character on success). -/
def findAllWith (m : List Char → Option (List Char × List Char)) :
    Nat → List Char → List (List Char)
  | 0, _ => []
  | _ + 1, [] => []
  | fuel + 1, c :: cs =>
    match m (c :: cs) with
    | some (r, rest) => r :: findAllWith m fuel rest
    | none => findAllWith m fuel cs

/-- The `entities` list accumulated over the five patterns, in pattern
order. -/
def entitiesOf (text : List Char) : List (List Char) :=
  findAllWith matchDotted text.length text
    ++ findAllWith matchEntityKw text.length text
    ++ findAllWith (matchLitDom ( "sensor.".toList)) text.length text
    ++ findAllWith (matchLitDom ( "switch.".toList)) text.length text
    ++ findAllWith (matchLitDom ( "light.".toList)) text.length text

/-- Embedding of `_extract_entity_references(text)`.  `list(set(...))` enumerates a
Python set in unspecified order; `List.dedup` is a fixed representative of
that deduplication (every claim about the result is order-insensitive). -/
def extract_entity_references (text : List Char) : List (List Char) :=
  (((entitiesOf text).filter
      (fun e => e.contains '.' && decide (3 < e.length))).map lowerStr).dedup

/-! ### Plain-endpoint log parser: `_parse_error_log`
(`ha_tools/lib/rest_api.py`) -/

/-- A structured log record (the dicts produced by the two text parsers
carry exactly these keys).  `timestamp = none` models the
`datetime.now()` fallback taken when no timestamp parses. -/
structure LogRec where
  timestamp : Option DateTime
  level : List Char
  source : List Char
  message : List Char
  context : List (List Char)
  deriving DecidableEq, Repr

/-- Model of `str.splitlines()` for `\n`-separated text (no trailing empty line for a
trailing newline), auxiliary accumulator form. -/
def splitLinesAux : List Char → List Char → List (List Char)
  | [], acc => [acc.reverse]
  | ['\n'], acc => [acc.reverse]
  | '\n' :: rest, acc => acc.reverse :: splitLinesAux rest []
  | c :: rest, acc => splitLinesAux rest (c :: acc)

/-- Model of `str.splitlines()` for `\n`-separated text. -/
def splitLines (cs : List Char) : List (List Char) :=
  if cs.isEmpty then [] else splitLinesAux cs []

/-- Python `str.replace(" ", "T")`. -/
def spaceToT (cs : List Char) : List Char :=
  cs.map (fun c => if c == ' ' then 'T' else c)

/-- Take exactly `n` digit characters. -/
def takeDigitsN : Nat → List Char → Option (List Char × List Char)
  | 0, cs => some ([], cs)
  | n + 1, c :: cs =>
    if c.isDigit then (takeDigitsN n cs).map (fun p => (c :: p.1, p.2)) else none
  | _ + 1, [] => none

/-- Take a maximal non-empty run of characters satisfying `p`
(regex `X+` for a character class `X`). -/
def takeRun1 (p : Char → Bool) (cs : List Char) : Option (List Char × List Char) :=
  let r := cs.takeWhile p
  if r.isEmpty then none else some (r, cs.dropWhile p)

/-- Consume one expected character. -/
def expectChar (c : Char) : List Char → Option (List Char)
  | d :: ds => if d == c then some ds else none
  | [] => none

/-- The level alternation `(ERROR|WARNING|CRITICAL|INFO|DEBUG)`, in the
pattern's order. -/
def levelTokens : List (List Char) :=
  [ "ERROR".toList, "WARNING".toList, "CRITICAL".toList, "INFO".toList,
    "DEBUG".toList]

/-- First alternation branch matching as a prefix (the branches start with
distinct letters, so at most one can continue the match). -/
def matchLevelTok : List (List Char) → List Char → Option (List Char × List Char)
  | [], _ => none
  | t :: ts, cs =>
    if listPrefixB t cs then some (t, cs.drop t.length) else matchLevelTok ts cs

/-- Match `\d{4}-\d{2}-\d{2}`; returns the matched text and the rest. -/
def matchDatePart (cs : List Char) : Option (List Char × List Char) := do
  let (d1, r1) ← takeDigitsN 4 cs
  let r2 ← expectChar '-' r1
  let (d2, r3) ← takeDigitsN 2 r2
  let r4 ← expectChar '-' r3
  let (d3, r5) ← takeDigitsN 2 r4
  some (d1 ++ ['-'] ++ d2 ++ ['-'] ++ d3, r5)

/-- Match `\d{2}:\d{2}:\d{2}`; returns the matched text and the rest. -/
def matchTimePart (cs : List Char) : Option (List Char × List Char) := do
  let (t1, r1) ← takeDigitsN 2 cs
  let r2 ← expectChar ':' r1
  let (t2, r3) ← takeDigitsN 2 r2
  let r4 ← expectChar ':' r3
  let (t3, r5) ← takeDigitsN 2 r4
  some (t1 ++ [':'] ++ t2 ++ [':'] ++ t3, r5)

/-- Match the optional `(?:\.\d+)?` fractional part (greedy; consumed only
when at least one digit follows the dot). -/
def matchFracPart (cs : List Char) : List Char × List Char :=
  match cs with
  | '.' :: rest =>
    let ds := rest.takeWhile Char.isDigit
    if ds.isEmpty then (([] : List Char), cs)
    else ('.' :: ds, rest.dropWhile Char.isDigit)
  | _ => (([] : List Char), cs)

/-- Match capture group 1,
`(\d{4}-\d{2}-\d{2}\s+\d{2}:\d{2}:\d{2}(?:\.\d+)?)`: the internal
whitespace is captured as matched. -/
def matchTsGroup (cs : List Char) : Option (List Char × List Char) := do
  let (date, r1) ← matchDatePart cs
  let (ws, r2) ← takeRun1 pySpace r1
  let (time, r3) ← matchTimePart r2
  let (frac, r4) := matchFracPart r3
  some (date ++ ws ++ time ++ frac, r4)

/-- Match `\(([^)]+)\)`; returns the group and the rest. -/
def matchParenGroup (cs : List Char) : Option (List Char × List Char) := do
  let r1 ← expectChar '(' cs
  let (g, r2) ← takeRun1 (fun c => !(c == ')')) r1
  let r3 ← expectChar ')' r2
  some (g, r3)

/-- Match `\[([^\]]+)\]`; returns the group and the rest. -/
def matchBracketGroup (cs : List Char) : Option (List Char × List Char) := do
  let r1 ← expectChar '[' cs
  let (g, r2) ← takeRun1 (fun c => !(c == ']')) r1
  let r3 ← expectChar ']' r2
  some (g, r3)

/-- The `re.match` of the anchored HA log-line pattern
`(\d{4}-\d{2}-\d{2}\s+\d{2}:\d{2}:\d{2}(?:\.\d+)?)\s+(ERROR|WARNING|CRITICAL|INFO|DEBUG)\s+\(([^)]+)\)\s+\[([^\]]+)\]\s*(.*)`;
returns the five groups (timestamp text, level, thread, source, message). -/
def matchHaLogLine (line : List Char) :
    Option (List Char × List Char × List Char × List Char × List Char) := do
  let (tsGroup, r1) ← matchTsGroup line
  let (_, r2) ← takeRun1 pySpace r1
  let (lvl, r3) ← matchLevelTok levelTokens r2
  let (_, r4) ← takeRun1 pySpace r3
  let (thread, r5) ← matchParenGroup r4
  let (_, r6) ← takeRun1 pySpace r5
  let (src, r7) ← matchBracketGroup r6
  some (tsGroup, lvl, thread, src, r7.dropWhile pySpace)

/-- The line loop of `_parse_error_log`: thread the open record through the
lines, flushing it when a new header line matches or the input ends. -/
def parseErrorLogLoop : List (List Char) → Option LogRec → List LogRec
  | [], cur =>
    (match cur with
     | some c => [c]
     | none => [])
  | line :: rest, cur =>
    if (stripPy line).isEmpty then parseErrorLogLoop rest cur
    else
      match matchHaLogLine line with
      | some (ts, lvl, _thread, src, msg) =>
        (match cur with
         | some c => [c]
         | none => []) ++
        parseErrorLogLoop rest (some
          { timestamp := parse_iso (spaceToT ts), level := lvl, source := src,
            message := msg, context := [] })
      | none =>
        match cur with
        | some c =>
          parseErrorLogLoop rest (some { c with context := c.context ++ [line] })
        | none => parseErrorLogLoop rest none

/-- Embedding of `_parse_error_log` up to (and including) the level filter — the value of
the local variable `logs` just before the final `logs[-50:]` slice. -/
def parse_error_log_full (text : List Char) (levels : List (List Char)) :
    List LogRec :=
  (parseErrorLogLoop (splitLines text) none).filter
    (fun log => (levels.map upperStr).contains log.level)

/-- Embedding of `_parse_error_log(log_text, levels)`: the level-filtered records,
sliced to `logs[-50:]`. -/
def parse_error_log (text : List Char) (levels : List (List Char)) :
    List LogRec :=
  let logs := parse_error_log_full text levels
  logs.drop (logs.length - 50)

/-! ### Entity/integration filter: `_filter_errors`
(`ha_tools/commands/logs.py`)

The code stringifies each entry dict with Python `str()`; the
stringification is an external primitive and enters the model as the
`stringify` parameter. -/

/-- Python truthiness of an optional string (`None` and `""` are falsy). -/
def optTruthy : Option (List Char) → Bool
  | some (_ :: _) => true
  | _ => false

/-- The per-entry test of the `_filter_errors` loop: the entity check
(lower-cased pattern with `*` removed, substring of the lower-cased
stringified entry) and the integration check (lower-cased pattern as-is),
both skipped for an absent/empty pattern. -/
def filterKeep {α : Type} (stringify : α → List Char)
    (entity integration : Option (List Char)) (e : α) : Bool :=
  (match entity with
   | some p =>
     if p.isEmpty then true
     else containsSubB ((lowerStr p).filter (fun c => !(c == '*')))
       (lowerStr (stringify e))
   | none => true)
  &&
  (match integration with
   | some p =>
     if p.isEmpty then true
     else containsSubB (lowerStr p) (lowerStr (stringify e))
   | none => true)

/-- Embedding of `_filter_errors(errors, entity, integration)`. -/
def filter_errors {α : Type} (stringify : α → List Char) (errors : List α)
    (entity integration : Option (List Char)) : List α :=
  if errors.isEmpty then []
  else errors.filter (filterKeep stringify entity integration)

/-! ### File log parser: `_parse_log_file`
(`ha_tools/commands/logs.py`) -/

/-- Try the timestamp shape `\d{4}-\d{2}-\d{2}[T ]\d{2}:\d{2}:\d{2}` at the
current position; returns the 19 matched characters. -/
def tsShapeAt (cs : List Char) : Option (List Char) :=
  match cs with
  | a1 :: a2 :: a3 :: a4 :: b1 :: m1 :: m2 :: b2 :: d1 :: d2 :: sep ::
      h1 :: h2 :: c1 :: n1 :: n2 :: c2 :: s1 :: s2 :: _ =>
    if allDigits [a1, a2, a3, a4, m1, m2, d1, d2, h1, h2, n1, n2, s1, s2]
        && b1 == '-' && b2 == '-' && (sep == 'T' || sep == ' ')
        && c1 == ':' && c2 == ':' then
      some [a1, a2, a3, a4, b1, m1, m2, b2, d1, d2, sep, h1, h2, c1, n1, n2,
        c2, s1, s2]
    else none
  | _ => none

/-- The `re.search` of the timestamp shape: the leftmost match. -/
def search_ts : List Char → Option (List Char)
  | [] => none
  | c :: cs =>
    match tsShapeAt (c :: cs) with
    | some m => some m
    | none => search_ts cs

/-- The `timestamp` local of the `_parse_log_file` loop: leftmost
timestamp-shaped substring, `" "` replaced by `"T"`, fed to
`datetime.fromisoformat`; `none` on no match or `ValueError`. -/
def lineTimestamp (line : List Char) : Option DateTime :=
  match search_ts line with
  | some s => parse_iso (spaceToT s)
  | none => none

/-- The `timestamp and timestamp < since` skip test (on the stripped
line). -/
def stale_line (since : DateTime) (line : List Char) : Bool :=
  match lineTimestamp line with
  | some t => decide (t.key < since.key)
  | none => false

/-- Word boundary `\b` on the left of a token starting with a word character. -/
def boundaryBefore : Option Char → Bool
  | none => true
  | some c => !wordChar c

/-- Word boundary `\b` on the right of a token ending with a word character. -/
def boundaryAfter : List Char → Bool
  | [] => true
  | c :: _ => !wordChar c

/-- Try each level token at the current position with word boundaries on
both sides.  The tokens come from a Python set joined with `|`, whose order
is unspecified; the five valid level names start with distinct letters, so
at most one token can match at any position and the order is irrelevant. -/
def levelAt (toks : List (List Char)) (prev : Option Char) (cs : List Char) :
    Option (List Char) :=
  toks.findSome? (fun t =>
    if listPrefixB t cs && boundaryBefore prev && boundaryAfter (cs.drop t.length)
    then some t else none)

/-- Search of the level alternation with word boundaries on both sides: leftmost match, returning
the matched level token (capture group 1). -/
def search_level (toks : List (List Char)) :
    Option Char → List Char → Option (List Char)
  | _, [] => none
  | prev, c :: cs =>
    match levelAt toks prev (c :: cs) with
    | some t => some t
    | none => search_level toks (some c) cs

/-- The free-text error indicators enabled when `"error"` is among the
requested levels. -/
def extraPatterns : List (List Char) :=
  [ "Exception".toList, "Failed".toList, "Error in".toList,
    "Traceback".toList]

/-- Flush the open entry (`if current_entry: entries.append(...)`). -/
def flushOpt (cur : Option LogRec) : List LogRec :=
  match cur with
  | some c => [c]
  | none => []

/-- The `level_match` local: `None` when the requested level set is empty
(empty alternation string is falsy), otherwise the boundary-delimited
search. -/
def lineLevelMatch (toks : List (List Char)) (line : List Char) :
    Option (List Char) :=
  if toks.isEmpty then none else search_level toks none line

/-- The `is_extra_pattern` local: any free-text indicator occurs in the
line. -/
def lineExtra (extras : List (List Char)) (line : List Char) : Bool :=
  extras.any (fun p => containsSubB p line)

/-- The fresh `current_entry` dict built when a line opens a new entry. -/
def openFileEntry (toks : List (List Char)) (path line : List Char) : LogRec :=
  { timestamp := lineTimestamp line
    level := (lineLevelMatch toks line).getD ( "ERROR".toList)
    source := path
    message := line
    context := [] }

/-- The line loop of `_parse_log_file`: strip; skip blank lines; skip lines
whose leftmost timestamp parses and is older than `since`; open a new entry
on a level match or free-text indicator (flushing the open one); otherwise
extend the open entry's context, closing it when the line carries its own
timestamp. -/
def parseLogFileLoop (since : DateTime) (toks extras : List (List Char))
    (path : List Char) : List (List Char) → Option LogRec → List LogRec
  | [], cur => flushOpt cur
  | rawLine :: rest, cur =>
    if (stripPy rawLine).isEmpty then
      parseLogFileLoop since toks extras path rest cur
    else if stale_line since (stripPy rawLine) then
      parseLogFileLoop since toks extras path rest cur
    else if (lineLevelMatch toks (stripPy rawLine)).isSome
        || lineExtra extras (stripPy rawLine) then
      flushOpt cur ++ parseLogFileLoop since toks extras path rest
        (some (openFileEntry toks path (stripPy rawLine)))
    else
      match cur with
      | some c =>
        if (lineTimestamp (stripPy rawLine)).isSome
            && !(lineLevelMatch toks (stripPy rawLine)).isSome
            && !lineExtra extras (stripPy rawLine) then
          { c with context := c.context ++ [stripPy rawLine] } ::
            parseLogFileLoop since toks extras path rest none
        else
          parseLogFileLoop since toks extras path rest
            (some { c with context := c.context ++ [stripPy rawLine] })
      | none => parseLogFileLoop since toks extras path rest none

/-- The `extra_patterns` local of `_parse_log_file`. -/
def extrasFor (levels : List (List Char)) : List (List Char) :=
  if levels.contains ( "error".toList) then extraPatterns else []

/-- Embedding of `_parse_log_file(log_path, since, levels, entity, integration)` on the
lines read from the file.  `stringify` stands for Python `str()` on an
entry dict, used only by the final `_filter_errors` application. -/
def parse_log_file (lines : List (List Char)) (since : DateTime)
    (levels : List (List Char)) (path : List Char)
    (stringify : LogRec → List Char) (entity integration : Option (List Char)) :
    List LogRec :=
  if optTruthy entity || optTruthy integration then
    filter_errors stringify
      (parseLogFileLoop since (levels.map upperStr) (extrasFor levels) path
        lines none)
      entity integration
  else
    parseLogFileLoop since (levels.map upperStr) (extrasFor levels) path
      lines none

/-- All timestamp-shaped substrings of a line (at every position), used to
state claim C3's hypothesis «the line contains a valid timestamp»; the code
itself only ever inspects the leftmost one (`re.search`). -/
def all_ts_shapes : List Char → List (List Char)
  | [] => []
  | c :: cs =>
    (match tsShapeAt (c :: cs) with
     | some m => [m]
     | none => []) ++ all_ts_shapes cs

/-- Claim C3's hypothesis: the line contains (anywhere) a
timestamp-shaped substring that parses to a valid datetime strictly
earlier than `since`. -/
def mentions_old_ts (since : DateTime) (line : List Char) : Bool :=
  (all_ts_shapes line).any (fun s =>
    match parse_iso (spaceToT s) with
    | some t => decide (t.key < since.key)
    | none => false)

/-! ### Fallback chain: `_fetch_current_logs` and `_analyze_log_files`
(`ha_tools/commands/logs.py`)

The three acquisition channels are external collaborators here: each comes
in as an `Except Unit (List α)` oracle result (`error` = the caught Python
exception, `ok` = the returned entry list).  For the file channel, each
well-known path contributes one oracle result (a missing path or a caught
per-file exception is an `error`); `_parse_log_file` applies the
entity/integration filters itself, so file-channel entries arrive
pre-filtered.  The chain is instrumented with the list of sources actually
consulted, in order. -/

inductive LogSource
  | ws
  | rest
  | file
  deriving DecidableEq, Repr

/-- Embedding of `_analyze_log_files`: union the per-path parse results in path order
(swallowing per-file errors), then sort by the `timestamp` key descending
(Python's stable `sort(key=..., reverse=True)`); `key` abstracts the sort
key of an entry. -/
def analyze_log_files {α : Type} (key : α → Nat)
    (results : List (Except Unit (List α))) : List α :=
  (results.foldl (fun acc r =>
    match r with
    | .ok l => acc ++ l
    | .error _ => acc) []).mergeSort (fun a b => decide (key b ≤ key a))

/-- The chain from the plain-endpoint attempt on (second and third source),
with the sources consulted so far accumulated. -/
def fetchFromRest {α : Type} (stringify : α → List Char) (key : α → Nat)
    (restRes : Except Unit (List α)) (fileResults : List (Except Unit (List α)))
    (entity integration : Option (List Char)) (consulted : List LogSource) :
    List α × List LogSource :=
  match restRes with
  | .ok l =>
    if !l.isEmpty then
      (filter_errors stringify l entity integration,
        consulted ++ [LogSource.rest])
    else
      (analyze_log_files key fileResults,
        consulted ++ [LogSource.rest, LogSource.file])
  | .error _ =>
    (analyze_log_files key fileResults,
      consulted ++ [LogSource.rest, LogSource.file])

/-- Embedding of `_fetch_current_logs`: WebSocket first, then the plain endpoint, then
the log files, stopping at the first source that yields a non-empty list;
a raised error or an empty result falls through to the next source. -/
def fetch_current_logs {α : Type} (stringify : α → List Char) (key : α → Nat)
    (wsRes restRes : Except Unit (List α))
    (fileResults : List (Except Unit (List α)))
    (entity integration : Option (List Char)) : List α × List LogSource :=
  match wsRes with
  | .ok l =>
    if !l.isEmpty then
      (filter_errors stringify l entity integration, [LogSource.ws])
    else
      fetchFromRest stringify key restRes fileResults entity integration
        [LogSource.ws]
  | .error _ =>
    fetchFromRest stringify key restRes fileResults entity integration
      [LogSource.ws]

/-! ### Correlation pass: `_perform_correlation_analysis`
(`ha_tools/commands/logs.py`)

Timestamps here are rational epoch seconds; the time-series store
(`db.get_entity_states`) and the registry name resolver are oracles. -/

/-- An error record as consumed by the correlation pass
(`error.get("timestamp")`, `error.get("message", "")`). -/
structure CorrInput where
  timestamp : Option ℚ
  message : List Char
  deriving DecidableEq, Repr

/-- A correlation result dict. -/
structure Correlation where
  error_timestamp : ℚ
  error_message : List Char
  entity_id : List Char
  entity_name : List Char
  state_changes : List StateChange
  correlation_strength : ℚ
  deriving DecidableEq, Repr

/-- The time-series store oracle:
`get_entity_states(entity_id, start_time, end_time, limit)`, with a raised
exception as `error`. -/
def DbOracle : Type :=
  List Char → ℚ → ℚ → Nat → Except Unit (List StateChange)

/-- The inner loop over one record's extracted entity references: query the
±5-minute window with limit 10; a raised query error skips the entity; a
correlation is appended only when more than one state change came back. -/
def correlateRefs (db : DbOracle) (getName : List Char → List Char)
    (t : ℚ) (msg : List Char) : List (List Char) → List Correlation
  | [] => []
  | ent :: rest =>
    (match db ent (t - 300) (t + 300) 10 with
     | .error _ => []
     | .ok scs =>
       if 1 < scs.length then
         [{ error_timestamp := t
            error_message := msg.take 100 ++ ( "...".toList)
            entity_id := ent
            entity_name := getName ent
            state_changes := scs
            correlation_strength := calculate_correlation_strength t scs }]
       else []) ++ correlateRefs db getName t msg rest

/-- The outer loop over the (already sliced) error records: skip records
without a timestamp, extract entity references from the message, and run
the inner loop. -/
def correlateErrors (db : DbOracle) (getName : List Char → List Char) :
    List CorrInput → List Correlation
  | [] => []
  | err :: rest =>
    (match err.timestamp with
     | none => []
     | some t =>
       correlateRefs db getName t err.message
         (extract_entity_references err.message)) ++
      correlateErrors db getName rest

/-- Embedding of `_perform_correlation_analysis(db, registry, errors)`: loop over
`errors[:20]`, then sort by `correlation_strength` descending (stable) and
return the top 10. -/
def perform_correlation_analysis (db : DbOracle)
    (getName : List Char → List Char) (errors : List CorrInput) :
    List Correlation :=
  ((correlateErrors db getName (errors.take 20)).mergeSort
    (fun a b => decide (b.correlation_strength ≤ a.correlation_strength))).take 10

/-- The recovery wrapper used to state error-resilience: every raised
time-series query is replaced by an empty success. -/
def recoverEmpty (db : DbOracle) : DbOracle :=
  fun ent s e lim =>
    match db ent s e lim with
    | .error _ => .ok []
    | .ok l => .ok l

/-- Concrete fixtures for the C5 counterexample: a store that always
returns two state changes, an identity name resolver, and 21 records whose
first 20 carry no entity reference while the 21st — the most recent by
timestamp — carries one. -/
def dbC5 : DbOracle :=
  fun _ _ _ _ => .ok [⟨some 1000⟩, ⟨some 1001⟩]

/-- Identity name resolver for the C5 fixtures. -/
def nameC5 : List Char → List Char :=
  fun e => e

/-- The 21 input records for the C5 counterexample. -/
def errsC5 : List CorrInput :=
  (List.range 20).map (fun i => { timestamp := some ((i : ℚ)), message := ['x'] })
    ++ [{ timestamp := some 1000, message := "sensor.temperature".toList }]

/-- The single correlation the 21st (most recent) record of `errsC5` would
produce. -/
def corrC5 : Correlation :=
  { error_timestamp := 1000
    error_message := "sensor.temperature...".toList
    entity_id := "sensor.temperature".toList
    entity_name := "sensor.temperature".toList
    state_changes := [⟨some 1000⟩, ⟨some 1001⟩]
    correlation_strength :=
      calculate_correlation_strength 1000 [⟨some 1000⟩, ⟨some 1001⟩] }

/-! ### WebSocket response decoding: `get_system_logs_ws`
(`ha_tools/lib/rest_api.py`)

Only the decoding of a successful `system_log/list` response is modelled
(the claim under scrutiny is about that loop); connection and command
plumbing are collaborators.  JSON epoch numbers are modelled as integers;
`WsTime.now` models the `datetime.now()` fallback. -/

inductive WsTime
  | now
  | epoch (n : Int)
  deriving DecidableEq, Repr

/-- A raw record of the `result` list.  `none` fields model absent keys
(`entry.get(...)` defaults).  `source` is the `[file, line]` JSON list with
elements rendered to text; the `str(source)` fallback for a short list is
abstracted by the `reprOf` parameter of the decoder. -/
structure RawWsEntry where
  name : List Char
  message : List (List Char)
  level : Option (List Char)
  source : Option (List (List Char))
  timestamp : Option Int
  first_occurred : Option Int
  exception : List Char
  count : Int
  deriving DecidableEq, Repr

/-- A decoded WebSocket log entry. -/
structure WsLogEntry where
  timestamp : WsTime
  level : List Char
  source : List Char
  source_location : List Char
  message : List Char
  context : List (List Char)
  exception : List Char
  count : Int
  first_occurred : Option Int
  deriving DecidableEq, Repr

/-- Decode one raw record (the body of the loop in `get_system_logs_ws`,
after the level filter). -/
def decodeWsEntry (reprOf : List (List Char) → List Char) (e : RawWsEntry) :
    WsLogEntry :=
  { timestamp :=
      if e.timestamp.getD 0 == 0 then WsTime.now
      else WsTime.epoch (e.timestamp.getD 0)
    level := upperStr (e.level.getD ( "error".toList))
    source := e.name
    source_location :=
      match e.source.getD [[], ( "0".toList)] with
      | f :: l :: _ => f ++ ( ":".toList) ++ l
      | short => reprOf short
    message := e.message.headD []
    context := if 1 < e.message.length then e.message.drop 1 else []
    exception := e.exception
    count := e.count
    first_occurred :=
      if e.first_occurred.getD (e.timestamp.getD 0) == 0 then none
      else some (e.first_occurred.getD (e.timestamp.getD 0)) }

/-- The decoding loop of `get_system_logs_ws` on a successful response:
uppercase the level, drop records whose level is not requested, decode the
rest in order. -/
def get_system_logs_ws_decode (levels : List (List Char))
    (reprOf : List (List Char) → List Char) : List RawWsEntry → List WsLogEntry
  | [] => []
  | e :: rest =>
    (if (levels.map upperStr).contains
        (upperStr (e.level.getD ( "error".toList))) then
      [decodeWsEntry reprOf e]
    else []) ++ get_system_logs_ws_decode levels reprOf rest

/-- Concrete fixture for the C7 counterexample: a record with a non-zero
timestamp and no `first_occurred` key. -/
def rawC7 : RawWsEntry :=
  { name := "n".toList
    message := [ "m".toList]
    level := some ( "error".toList)
    source := some [ "f.py".toList, "1".toList]
    timestamp := some 100
    first_occurred := none
    exception := []
    count := 1 }

-- THEOREMS BELOW THIS LINE

/-- Unfolding equation for `Char.toLower`. -/
theorem toLower_def (c : Char) :
    c.toLower = if c.toNat ≥ 65 ∧ c.toNat ≤ 90 then Char.ofNat (c.toNat + 32) else c :=
  rfl

/-- The conversion `Char.ofNat` round-trips on the ASCII lowercase range. -/
theorem toNat_ofNat_lower (n : Nat) (h1 : 97 ≤ n) (h2 : n ≤ 122) :
    (Char.ofNat n).toNat = n := by
  interval_cases n <;> decide

/-- Lowercasing via `Char.toLower` never produces an ASCII uppercase letter. -/
theorem toLower_not_upper (c : Char) :
    ¬(c.toLower.toNat ≥ 65 ∧ c.toLower.toNat ≤ 90) := by
  rw [toLower_def]
  by_cases h : c.toNat ≥ 65 ∧ c.toNat ≤ 90
  · rw [if_pos h]
    rw [toNat_ofNat_lower (c.toNat + 32) (by omega) (by omega)]
    omega
  · rw [if_neg h]
    exact h

/-- Lowercasing via `Char.toLower` is idempotent. -/
theorem toLower_idem (c : Char) : c.toLower.toLower = c.toLower := by
  rw [toLower_def c.toLower, if_neg (toLower_not_upper c)]

/-- Lowercasing via `lowerStr` is idempotent. -/
theorem lowerStr_idem (cs : List Char) : lowerStr (lowerStr cs) = lowerStr cs := by
  simp only [lowerStr, List.map_map]
  exact List.map_congr_left (fun c _ => toLower_idem c)

/-- Auxiliary: the fold in the scorer computes the accumulated sum of
spec-side contributions. -/
theorem strength_foldl_eq_sum (t : ℚ) (changes : List StateChange) (s : ℚ) :
    changes.foldl
      (fun s change =>
        match change.lastChanged with
        | none => s
        | some change_time =>
          let time_diff := |t - change_time|
          if time_diff < 60 then s + 1
          else if time_diff < 300 then s + 1/2
          else if time_diff < 600 then s + 1/5
          else s)
      s = s + specStrengthSum t changes := by
  induction changes generalizing s with
  | nil => simp [specStrengthSum]
  | cons c cs ih =>
    simp only [List.foldl_cons, specStrengthSum, List.map_cons, List.sum_cons]
    rw [ih]
    cases h : c.lastChanged with
    | none => simp [specContribution, h, specStrengthSum]
    | some ct =>
      simp only [specContribution, h]
      by_cases h1 : |t - ct| < 60
      · simp [h1, specStrengthSum, add_assoc]
      · by_cases h2 : |t - ct| < 300
        · simp [h1, h2, le_of_not_lt h1, specStrengthSum, add_assoc]
        · by_cases h3 : |t - ct| < 600
          · simp [h1, h2, h3, le_of_not_lt h2, specStrengthSum, add_assoc]
          · simp [h1, h2, h3, le_of_not_lt h2, specStrengthSum]

/-- C1: the correlation strength equals `min(3, S)` where `S` is the sum of
the spec's per-record contributions (1 within 60 s, 1/2 within [60, 300) s,
1/5 within [300, 600) s, 0 otherwise, unparsable records contributing
nothing); the empty sequence yields exactly 0; and the result never exceeds
3 however many qualifying records are supplied. -/
theorem correlation_strength_spec (t : ℚ) (changes : List StateChange) :
    calculate_correlation_strength t changes = min 3 (specStrengthSum t changes)
      ∧ calculate_correlation_strength t [] = 0
      ∧ calculate_correlation_strength t changes ≤ 3 := by
  have hmain : ∀ cs : List StateChange,
      calculate_correlation_strength t cs = min 3 (specStrengthSum t cs) := by
    intro cs
    unfold calculate_correlation_strength
    cases cs with
    | nil => simp [specStrengthSum]
    | cons c rest =>
      simp only [List.isEmpty_cons, if_neg]
      rw [strength_foldl_eq_sum]
      simp [min_comm]
  refine ⟨hmain changes, by simpa using hmain [], ?_⟩
  rw [hmain changes]
  exact min_le_left _ _

/-- C6: extraction on the example text yields exactly the set
`{sensor.temperature, switch.light, sensor.humidity}`; and on every input,
every returned reference is lower-cased, contains a `.` separator, is at
least 4 characters long, and the result has no duplicates. -/
theorem extract_entity_references_spec :
    (∀ x : List Char,
      x ∈ extract_entity_references
          ( "Error in sensor.temperature and switch.light, also sensor.humidity".toList) ↔
        (x = "sensor.temperature".toList ∨ x = "switch.light".toList ∨
          x = "sensor.humidity".toList))
    ∧ (∀ text e : List Char, e ∈ extract_entity_references text →
        lowerStr e = e ∧ '.' ∈ e ∧ 4 ≤ e.length)
    ∧ (∀ text : List Char, (extract_entity_references text).Nodup) := by
  refine ⟨?_, ?_, ?_⟩
  · have hconc : extract_entity_references
        ( "Error in sensor.temperature and switch.light, also sensor.humidity".toList) =
        [ "sensor.temperature".toList, "sensor.humidity".toList,
          "switch.light".toList] := by decide
    intro x
    rw [hconc]
    simp only [List.mem_cons, List.not_mem_nil, or_false]
    tauto
  · intro text e he
    rw [extract_entity_references, List.mem_dedup] at he
    obtain ⟨v, hv, rfl⟩ := List.mem_map.mp he
    have hf := List.mem_filter.mp hv
    have hpred := hf.2
    simp only [Bool.and_eq_true, decide_eq_true_eq] at hpred
    refine ⟨lowerStr_idem v, ?_, ?_⟩
    · have hdot : '.' ∈ v := by
        have := hpred.1
        simpa using this
      exact List.mem_map.mpr ⟨'.', hdot, by decide⟩
    · simp only [lowerStr, List.length_map]
      omega
  · intro text
    exact List.nodup_dedup _

/-- Witness for `extract_entity_references_spec`: its per-element clause
applied to a concrete member of a concrete extraction. -/
theorem extract_entity_references_spec_witness :
    "sensor.temperature".toList ∈ extract_entity_references
        ( "Error in sensor.temperature and switch.light, also sensor.humidity".toList)
    ∧ (lowerStr ( "sensor.temperature".toList) = "sensor.temperature".toList
        ∧ '.' ∈ ( "sensor.temperature".toList)
        ∧ 4 ≤ ( "sensor.temperature".toList).length) :=
  ⟨by decide, extract_entity_references_spec.2.1
    ( "Error in sensor.temperature and switch.light, also sensor.humidity".toList)
    ( "sensor.temperature".toList) (by decide)⟩

/-- C4: on the four-line example, `_parse_error_log` with ERROR requested
produces exactly 2 entries; the first has source `homeassistant.core`,
message `Error doing job` and exactly 2 context lines. -/
theorem parse_error_log_example :
    (parse_error_log (String.toList
        "2024-01-15 10:30:45.123 ERROR (MainThread) [homeassistant.core] Error doing job\nTraceback...\nValueError: test\n2024-01-15 10:31:00.456 ERROR (MainThread) [custom_component] Another error")
        [ "error".toList]).length = 2
    ∧ ((parse_error_log (String.toList
        "2024-01-15 10:30:45.123 ERROR (MainThread) [homeassistant.core] Error doing job\nTraceback...\nValueError: test\n2024-01-15 10:31:00.456 ERROR (MainThread) [custom_component] Another error")
        [ "error".toList]).map
          (fun r => (r.source, r.message, r.context.length))).head? =
      some ( "homeassistant.core".toList, "Error doing job".toList, 2) := by
  constructor
  · decide
  · decide

/-- C10: for every input text and requested level set, `_parse_error_log`
returns at most 50 entries, and the result is a suffix (hence the last
entries, in input order) of the full level-filtered entry list, of length
`min 50 (length of that list)`. -/
theorem parse_error_log_cap (text : List Char) (levels : List (List Char)) :
    (parse_error_log text levels).length
        = min 50 (parse_error_log_full text levels).length
      ∧ (parse_error_log text levels).length ≤ 50
      ∧ parse_error_log text levels <:+ parse_error_log_full text levels := by
  have hlen : (parse_error_log text levels).length
      = min 50 (parse_error_log_full text levels).length := by
    rw [parse_error_log]
    simp only [List.length_drop]
    omega
  refine ⟨hlen, ?_, ?_⟩
  · rw [hlen]
    exact min_le_left _ _
  · rw [parse_error_log]
    exact List.drop_suffix _ _

/-- C8 counterexample: with entity pattern `a*b`, the entry stringifying to
`xaby` is kept although the lower-cased pattern `a*b` does not occur in it:
the code strips `*` from the entity pattern before matching, which the
claim does not allow. -/
theorem filter_errors_star_counterexample :
    filter_errors (fun e => e) [ "xaby".toList] (some ( "a*b".toList)) none
        = [ "xaby".toList]
      ∧ containsSubB (lowerStr ( "a*b".toList)) (lowerStr ( "xaby".toList))
        = false := by
  constructor
  · decide
  · decide

/-- C8 (amended): for a non-empty entity pattern the filter keeps exactly
the entries whose lower-cased stringification contains the lower-cased
pattern with all `*` removed; a non-empty integration pattern is used
as-is; and the result is always a sublist of the input (entries unchanged,
order preserved). -/
theorem filter_errors_spec {α : Type} (stringify : α → List Char)
    (errors : List α) (p : List Char) (hp : p ≠ []) :
    filter_errors stringify errors (some p) none
        = errors.filter (fun e =>
            containsSubB ((lowerStr p).filter (fun c => !(c == '*')))
              (lowerStr (stringify e)))
      ∧ filter_errors stringify errors none (some p)
        = errors.filter (fun e =>
            containsSubB (lowerStr p) (lowerStr (stringify e)))
      ∧ ∀ entity integration : Option (List Char),
          List.Sublist (filter_errors stringify errors entity integration)
            errors := by
  have hpe : p.isEmpty = false := by
    cases p with
    | nil => exact absurd rfl hp
    | cons a as => rfl
  refine ⟨?_, ?_, ?_⟩
  · cases he : errors.isEmpty with
    | true =>
      rw [List.isEmpty_iff] at he
      subst he
      rfl
    | false =>
      simp only [filter_errors, he, Bool.false_eq_true, if_false]
      apply List.filter_congr
      intro e _
      simp [filterKeep, hpe]
  · cases he : errors.isEmpty with
    | true =>
      rw [List.isEmpty_iff] at he
      subst he
      rfl
    | false =>
      simp only [filter_errors, he, Bool.false_eq_true, if_false]
      apply List.filter_congr
      intro e _
      simp [filterKeep, hpe]
  · intro entity integration
    cases he : errors.isEmpty with
    | true =>
      rw [List.isEmpty_iff] at he
      subst he
      simp [filter_errors]
    | false =>
      simp only [filter_errors, he]
      exact List.filter_sublist _

/-- The C8 witness: `filter_errors_spec` applied at a concrete non-empty
entity pattern. -/
theorem filter_errors_spec_witness :
    ( "ab".toList ≠ ([] : List Char))
    ∧ filter_errors (fun e : List Char => e) [ "xaby".toList]
        (some ( "ab".toList)) none
      = [ "xaby".toList].filter (fun e =>
          containsSubB ((lowerStr ( "ab".toList)).filter (fun c => !(c == '*')))
            (lowerStr e)) :=
  ⟨by decide, (filter_errors_spec (fun e : List Char => e) [ "xaby".toList]
      ( "ab".toList) (by decide)).1⟩

/-- Membership in a `_filter_errors` result implies membership in its
input. -/
theorem mem_of_mem_filter_errors {α : Type} {stringify : α → List Char}
    {errors : List α} {entity integration : Option (List Char)} {r : α}
    (h : r ∈ filter_errors stringify errors entity integration) :
    r ∈ errors := by
  rw [filter_errors] at h
  split at h
  · exact absurd h (List.not_mem_nil r)
  · exact (List.mem_filter.mp h).1

/-- Provenance of the `_parse_log_file` loop: any property `P` holding of
every non-blank, non-stale stripped input line and of the open entry's
message and context holds of the message and every context line of every
produced record. -/
theorem parseLogFileLoop_provenance (since : DateTime)
    (toks extras : List (List Char)) (path : List Char)
    (P : List Char → Prop) :
    ∀ (lines : List (List Char)) (cur : Option LogRec),
      (∀ l ∈ lines, (stripPy l).isEmpty = false →
        stale_line since (stripPy l) = false → P (stripPy l)) →
      (∀ c, cur = some c → P c.message ∧ ∀ x ∈ c.context, P x) →
      ∀ r ∈ parseLogFileLoop since toks extras path lines cur,
        P r.message ∧ ∀ x ∈ r.context, P x := by
  intro lines
  induction lines with
  | nil =>
    intro cur hl hc r hr
    simp only [parseLogFileLoop] at hr
    cases cur with
    | none => simp [flushOpt] at hr
    | some c =>
      simp only [flushOpt, List.mem_singleton] at hr
      subst hr
      exact hc r rfl
  | cons raw rest ih =>
    intro cur hl hc r hr
    have hlrest : ∀ l ∈ rest, (stripPy l).isEmpty = false →
        stale_line since (stripPy l) = false → P (stripPy l) :=
      fun l hm => hl l (List.mem_cons_of_mem _ hm)
    simp only [parseLogFileLoop] at hr
    by_cases hblank : (stripPy raw).isEmpty = true
    · rw [if_pos hblank] at hr
      exact ih cur hlrest hc r hr
    · rw [if_neg hblank] at hr
      by_cases hstale : stale_line since (stripPy raw) = true
      · rw [if_pos hstale] at hr
        exact ih cur hlrest hc r hr
      · rw [if_neg hstale] at hr
        have hPline : P (stripPy raw) :=
          hl raw (List.mem_cons_self _ _) (Bool.eq_false_iff.mpr hblank)
            (Bool.eq_false_iff.mpr hstale)
        by_cases hopen : ((lineLevelMatch toks (stripPy raw)).isSome
            || lineExtra extras (stripPy raw)) = true
        · rw [if_pos hopen] at hr
          rcases List.mem_append.mp hr with hr1 | hr2
          · cases cur with
            | none => simp [flushOpt] at hr1
            | some c =>
              simp only [flushOpt, List.mem_singleton] at hr1
              subst hr1
              exact hc r rfl
          · refine ih _ hlrest ?_ r hr2
            intro c hcn
            cases hcn
            exact ⟨hPline, by intro x hx; simp [openFileEntry] at hx⟩
        · rw [if_neg hopen] at hr
          cases cur with
          | some c =>
            have hcc := hc c rfl
            dsimp only [] at hr
            by_cases hcl : ((lineTimestamp (stripPy raw)).isSome
                && !(lineLevelMatch toks (stripPy raw)).isSome
                && !lineExtra extras (stripPy raw)) = true
            · rw [if_pos hcl] at hr
              rcases List.mem_cons.mp hr with hr1 | hr2
              · subst hr1
                refine ⟨hcc.1, ?_⟩
                intro x hx
                rcases List.mem_append.mp hx with hx1 | hx2
                · exact hcc.2 x hx1
                · rw [List.mem_singleton] at hx2
                  subst hx2
                  exact hPline
              · exact ih none hlrest (fun c h => nomatch h) r hr2
            · rw [if_neg hcl] at hr
              refine ih _ hlrest ?_ r hr
              intro c' hcn
              cases hcn
              refine ⟨hcc.1, ?_⟩
              intro x hx
              rcases List.mem_append.mp hx with hx1 | hx2
              · exact hcc.2 x hx1
              · rw [List.mem_singleton] at hx2
                subst hx2
                exact hPline
          | none => exact ih none hlrest (fun c h => nomatch h) r hr

/-- C3 (amended): a line whose *leftmost* timestamp-shaped substring parses
to a valid timestamp strictly earlier than `since` — the condition the code
tests — is a no-op for the parser state (it neither closes nor extends the
open entry), and its stripped text is neither the message of any record in
the parser output nor an element of any record's context. -/
theorem parse_log_file_stale_spec (since : DateTime)
    (toks extras : List (List Char)) (path raw : List Char)
    (h : stale_line since (stripPy raw) = true) :
    (∀ (rest : List (List Char)) (cur : Option LogRec),
        parseLogFileLoop since toks extras path (raw :: rest) cur
          = parseLogFileLoop since toks extras path rest cur)
    ∧ ∀ (lines : List (List Char)) (levels : List (List Char))
        (stringify : LogRec → List Char)
        (entity integration : Option (List Char)),
        ∀ r ∈ parse_log_file lines since levels path stringify
            entity integration,
          r.message ≠ stripPy raw ∧ stripPy raw ∉ r.context := by
  have hne : (stripPy raw).isEmpty = false := by
    cases hsr : stripPy raw with
    | nil =>
      rw [hsr] at h
      exact absurd h (by rw [show stale_line since [] = false from rfl]; simp)
    | cons a as => rfl
  constructor
  · intro rest cur
    simp only [parseLogFileLoop]
    rw [if_neg (by simp [hne]), if_pos h]
  · intro lines levels stringify entity integration r hr
    have hr2 : r ∈ parseLogFileLoop since (levels.map upperStr)
        (extrasFor levels) path lines none := by
      rw [parse_log_file] at hr
      split at hr
      · exact mem_of_mem_filter_errors hr
      · exact hr
    have hprov := parseLogFileLoop_provenance since (levels.map upperStr)
      (extrasFor levels) path (fun s => s ≠ stripPy raw) lines none
      (fun l _ _ hstl heq => by
        rw [heq, h] at hstl
        simp at hstl)
      (fun c hcn => nomatch hcn) r hr2
    exact ⟨hprov.1, fun hx => (hprov.2 _ hx) rfl⟩

/-- C3 counterexample to the claim as stated: this line *contains* a valid
timestamp (`2000-01-01 00:00:00`) strictly earlier than `since`
(2020-01-01), yet it is not skipped — its leftmost timestamp
(`2030-01-01 00:00:00`) is newer than `since` — and it appears verbatim as
the message of a produced entry. -/
theorem parse_log_file_stale_counterexample :
    mentions_old_ts (DateTime.mk 2020 1 1 0 0 0)
        ( "ERROR boom 2030-01-01 00:00:00 x 2000-01-01 00:00:00".toList) = true
      ∧ (parse_log_file
          [ "ERROR boom 2030-01-01 00:00:00 x 2000-01-01 00:00:00".toList]
          (DateTime.mk 2020 1 1 0 0 0) [ "error".toList] ( "p".toList)
          (fun _ => []) none none).map (fun r => r.message)
        = [ "ERROR boom 2030-01-01 00:00:00 x 2000-01-01 00:00:00".toList] := by
  constructor
  · decide
  · decide

/-- Witness for `parse_log_file_stale_spec` at a concrete stale line. -/
theorem parse_log_file_stale_spec_witness :
    stale_line (DateTime.mk 2020 1 1 0 0 0)
        (stripPy ( "2000-01-01 00:00:00 ERROR old".toList)) = true
      ∧ parseLogFileLoop (DateTime.mk 2020 1 1 0 0 0) [ "ERROR".toList]
          extraPatterns ( "p".toList)
          [ "2000-01-01 00:00:00 ERROR old".toList] none
        = parseLogFileLoop (DateTime.mk 2020 1 1 0 0 0) [ "ERROR".toList]
          extraPatterns ( "p".toList) [] none :=
  ⟨by decide,
    (parse_log_file_stale_spec (DateTime.mk 2020 1 1 0 0 0) [ "ERROR".toList]
      extraPatterns ( "p".toList) ( "2000-01-01 00:00:00 ERROR old".toList)
      (by decide)).1 [] none⟩
/-- Embedding fact: `_analyze_log_files` returns the empty list when every per-path attempt
raises or yields nothing. -/
theorem analyze_log_files_empty {α : Type} (key : α → Nat)
    (results : List (Except Unit (List α)))
    (h : ∀ r ∈ results, r = .error () ∨ r = .ok []) :
    analyze_log_files key results = [] := by
  have hf : ∀ (rs : List (Except Unit (List α))),
      (∀ r ∈ rs, r = .error () ∨ r = .ok []) →
      rs.foldl (fun acc r =>
        match r with
        | .ok l => acc ++ l
        | .error _ => acc) [] = ([] : List α) := by
    intro rs
    induction rs with
    | nil => intro _; rfl
    | cons r rs ih =>
      intro hall
      rcases hall r (List.mem_cons_self _ _) with h1 | h1 <;>
        subst h1 <;>
        simpa using ih (fun x hx => hall x (List.mem_cons_of_mem _ hx))
  rw [analyze_log_files, hf results h, List.mergeSort_nil]

/-- C2: if the WebSocket source returns a non-empty list, it is the only
source consulted; if the WebSocket raises or returns empty and the plain
endpoint returns a non-empty list, file parsing is never consulted; and if
all three sources raise or return nothing, the result is the empty list
(a normally returned value, not an error). -/
theorem fetch_current_logs_chain_spec {α : Type} (stringify : α → List Char)
    (key : α → Nat) (wsRes restRes : Except Unit (List α))
    (fileResults : List (Except Unit (List α)))
    (entity integration : Option (List Char)) :
    (∀ l, wsRes = .ok l → l ≠ [] →
      (fetch_current_logs stringify key wsRes restRes fileResults entity
        integration).2 = [LogSource.ws])
    ∧ ((wsRes = .error () ∨ wsRes = .ok []) → ∀ l, restRes = .ok l → l ≠ [] →
      LogSource.file ∉ (fetch_current_logs stringify key wsRes restRes
        fileResults entity integration).2)
    ∧ ((wsRes = .error () ∨ wsRes = .ok []) →
      (restRes = .error () ∨ restRes = .ok []) →
      (∀ fr ∈ fileResults, fr = .error () ∨ fr = .ok []) →
      (fetch_current_logs stringify key wsRes restRes fileResults entity
        integration).1 = []) := by
  refine ⟨?_, ?_, ?_⟩
  · rintro l rfl hne
    cases l with
    | nil => exact absurd rfl hne
    | cons a as => rfl
  · rintro (rfl | rfl) l rfl hne <;>
      cases l with
      | nil => exact absurd rfl hne
      | cons a as => simp [fetch_current_logs, fetchFromRest]
  · rintro (rfl | rfl) hrest hfiles
    · rcases hrest with rfl | rfl
      · simpa [fetch_current_logs, fetchFromRest] using
          analyze_log_files_empty key fileResults hfiles
      · simpa [fetch_current_logs, fetchFromRest] using
          analyze_log_files_empty key fileResults hfiles
    · rcases hrest with rfl | rfl
      · simpa [fetch_current_logs, fetchFromRest] using
          analyze_log_files_empty key fileResults hfiles
      · simpa [fetch_current_logs, fetchFromRest] using
          analyze_log_files_empty key fileResults hfiles

/-- Replacing every raised time-series query by an empty success leaves the
inner correlation loop unchanged: a failing entity lookup is skipped
without affecting the other entities. -/
theorem correlateRefs_recover (db : DbOracle) (getName : List Char → List Char)
    (t : ℚ) (msg : List Char) :
    ∀ refs, correlateRefs (recoverEmpty db) getName t msg refs
      = correlateRefs db getName t msg refs := by
  intro refs
  induction refs with
  | nil => rfl
  | cons ent rest ih =>
    rw [correlateRefs, correlateRefs, ih]
    congr 1
    simp only [recoverEmpty]
    cases db ent (t - 300) (t + 300) 10 with
    | error e => simp
    | ok scs => rfl

/-- Lifting of `correlateRefs_recover` to the outer loop. -/
theorem correlateErrors_recover (db : DbOracle)
    (getName : List Char → List Char) :
    ∀ errors, correlateErrors (recoverEmpty db) getName errors
      = correlateErrors db getName errors := by
  intro errors
  induction errors with
  | nil => rfl
  | cons err rest ih =>
    rw [correlateErrors, correlateErrors, ih]
    congr 1
    cases err.timestamp with
    | none => rfl
    | some t => exact correlateRefs_recover db getName t err.message _

/-- With a store whose every query raises, the inner loop emits nothing. -/
theorem correlateRefs_allfail (getName : List Char → List Char) (t : ℚ)
    (msg : List Char) :
    ∀ refs, correlateRefs (fun _ _ _ _ => .error ()) getName t msg refs = [] := by
  intro refs
  induction refs with
  | nil => rfl
  | cons ent rest ih =>
    rw [correlateRefs, ih]
    rfl

/-- With a store whose every query raises, the outer loop emits nothing. -/
theorem correlateErrors_allfail (getName : List Char → List Char) :
    ∀ errors, correlateErrors (fun _ _ _ _ => .error ()) getName errors = [] := by
  intro errors
  induction errors with
  | nil => rfl
  | cons err rest ih =>
    rw [correlateErrors, ih, List.append_nil]
    cases err.timestamp with
    | none => rfl
    | some t => exact correlateRefs_allfail getName t err.message _

/-- C9: no collaborator failure propagates — a raised WebSocket attempt is
indistinguishable from an empty one, likewise for the plain endpoint; a
failing per-file parse is simply dropped; a raised time-series query is
indistinguishable from an empty result (so one failing entity lookup never
aborts the pass for the others); and when every query raises the pass
returns the empty list — the worst observable outcome. -/
theorem error_resilience_spec {α : Type} (stringify : α → List Char)
    (key : α → Nat) :
    (∀ (restRes : Except Unit (List α)) fileResults entity integration,
      fetch_current_logs stringify key (.error ()) restRes fileResults
        entity integration
        = fetch_current_logs stringify key (.ok []) restRes fileResults
          entity integration)
    ∧ (∀ (wsRes : Except Unit (List α)) fileResults entity integration,
      fetch_current_logs stringify key wsRes (.error ()) fileResults
        entity integration
        = fetch_current_logs stringify key wsRes (.ok []) fileResults
          entity integration)
    ∧ (∀ results, analyze_log_files key (Except.error () :: results)
        = analyze_log_files key results)
    ∧ (∀ (db : DbOracle) (getName : List Char → List Char) errors,
        perform_correlation_analysis (recoverEmpty db) getName errors
          = perform_correlation_analysis db getName errors)
    ∧ (∀ (getName : List Char → List Char) errors,
        perform_correlation_analysis (fun _ _ _ _ => .error ()) getName
          errors = []) := by
  refine ⟨?_, ?_, ?_, ?_, ?_⟩
  · intro restRes fileResults entity integration
    rfl
  · intro wsRes fileResults entity integration
    cases wsRes with
    | error e => rfl
    | ok l =>
      cases l with
      | nil => rfl
      | cons a as => rfl
  · intro results
    rfl
  · intro db getName errors
    rw [perform_correlation_analysis, perform_correlation_analysis,
      correlateErrors_recover]
  · intro getName errors
    rw [perform_correlation_analysis, correlateErrors_allfail,
      List.mergeSort_nil]
    rfl

/-- Every correlation emitted by the inner loop carries more than one
state-change record. -/
theorem mem_correlateRefs_changes (db : DbOracle)
    (getName : List Char → List Char) (t : ℚ) (msg : List Char) :
    ∀ refs, ∀ c ∈ correlateRefs db getName t msg refs,
      1 < c.state_changes.length := by
  intro refs
  induction refs with
  | nil => intro c hc; simp [correlateRefs] at hc
  | cons ent rest ih =>
    intro c hc
    rw [correlateRefs] at hc
    rcases List.mem_append.mp hc with h1 | h2
    · cases hdb : db ent (t - 300) (t + 300) 10 with
      | error e => rw [hdb] at h1; simp at h1
      | ok scs =>
        rw [hdb] at h1
        dsimp only [] at h1
        by_cases hlen : 1 < scs.length
        · rw [if_pos hlen] at h1
          rw [List.mem_singleton] at h1
          subst h1
          exact hlen
        · rw [if_neg hlen] at h1
          simp at h1
    · exact ih c h2

/-- Every correlation emitted by the outer loop carries more than one
state-change record. -/
theorem mem_correlateErrors_changes (db : DbOracle)
    (getName : List Char → List Char) :
    ∀ errors, ∀ c ∈ correlateErrors db getName errors,
      1 < c.state_changes.length := by
  intro errors
  induction errors with
  | nil => intro c hc; simp [correlateErrors] at hc
  | cons err rest ih =>
    intro c hc
    rw [correlateErrors] at hc
    rcases List.mem_append.mp hc with h1 | h2
    · cases ht : err.timestamp with
      | none => rw [ht] at h1; simp at h1
      | some t =>
        rw [ht] at h1
        exact mem_correlateRefs_changes db getName t err.message _ c h1
    · exact ih c h2

/-- C5 (amended): the correlation pass examines exactly the *first* 20
records of its input list (the most recent 20 only when the caller passes a
newest-first list); a correlation is emitted only when the store returned
more than one state-change record; and the result is sorted by
non-increasing `correlation_strength` and holds at most 10 entries. -/
theorem perform_correlation_spec (db : DbOracle)
    (getName : List Char → List Char) (errors : List CorrInput) :
    perform_correlation_analysis db getName errors
        = perform_correlation_analysis db getName (errors.take 20)
    ∧ (∀ c ∈ perform_correlation_analysis db getName errors,
        1 < c.state_changes.length)
    ∧ (perform_correlation_analysis db getName errors).length ≤ 10
    ∧ (perform_correlation_analysis db getName errors).Pairwise
        (fun a b => b.correlation_strength ≤ a.correlation_strength) := by
  refine ⟨?_, ?_, ?_, ?_⟩
  · rw [perform_correlation_analysis, perform_correlation_analysis,
      List.take_take, min_self]
  · intro c hc
    have hc2 : c ∈ (correlateErrors db getName (errors.take 20)).mergeSort
        (fun a b => decide (b.correlation_strength ≤ a.correlation_strength)) :=
      List.take_subset _ _ hc
    have hc3 : c ∈ correlateErrors db getName (errors.take 20) :=
      (List.mergeSort_perm _ _).subset hc2
    exact mem_correlateErrors_changes db getName _ c hc3
  · rw [perform_correlation_analysis]
    exact List.length_take_le _ _
  · have hs := @List.sorted_mergeSort Correlation
      (fun a b : Correlation =>
        decide (b.correlation_strength ≤ a.correlation_strength))
      (fun a b c h1 h2 => by
        simp only [decide_eq_true_eq] at h1 h2 ⊢
        exact le_trans h2 h1)
      (fun a b => by
        simp only [Bool.or_eq_true, decide_eq_true_eq]
        exact le_total _ _)
      (correlateErrors db getName (errors.take 20))
    have hp : ((correlateErrors db getName (errors.take 20)).mergeSort
        (fun a b => decide (b.correlation_strength ≤ a.correlation_strength))).Pairwise
        (fun a b => b.correlation_strength ≤ a.correlation_strength) :=
      hs.imp (fun h => by simpa using h)
    exact hp.sublist (List.take_sublist _ _)

/-- C5 counterexample to «examines exactly the 20 most recent»: in
`errsC5` the 21st record is strictly the most recent and would produce a
correlation, yet the pass returns nothing because it examines only the
first 20 records of the list as given. -/
theorem perform_correlation_counterexample :
    perform_correlation_analysis dbC5 nameC5 errsC5 = []
    ∧ perform_correlation_analysis dbC5 nameC5 (errsC5.drop 20) = [corrC5]
    ∧ errsC5.length = 21
    ∧ (errsC5.take 20).all
        (fun e => decide (e.timestamp.getD 0 < (1000 : ℚ))) = true
    ∧ (errsC5.drop 20).map (fun e => e.timestamp) = [some 1000]
    ∧ 1 < corrC5.state_changes.length := by
  have h1 : correlateErrors dbC5 nameC5 (errsC5.take 20) = [] := by rfl
  have h2 : correlateErrors dbC5 nameC5 ((errsC5.drop 20).take 20)
      = [corrC5] := by rfl
  refine ⟨?_, ?_, by decide, by decide, by rfl, by decide⟩
  · rw [perform_correlation_analysis, h1, List.mergeSort_nil]
    rfl
  · rw [perform_correlation_analysis, h2, List.mergeSort_singleton]
    rfl

/-- Witness for `perform_correlation_spec`: its emission clause applied to
a concrete member of a concrete run. -/
theorem perform_correlation_spec_witness :
    corrC5 ∈ perform_correlation_analysis dbC5 nameC5 (errsC5.drop 20)
    ∧ 1 < corrC5.state_changes.length :=
  ⟨by
    have h2 : correlateErrors dbC5 nameC5 ((errsC5.drop 20).take 20)
        = [corrC5] := by rfl
    rw [perform_correlation_analysis, h2, List.mergeSort_singleton]
    exact List.mem_singleton.mpr rfl,
   (perform_correlation_spec dbC5 nameC5 (errsC5.drop 20)).2.1 corrC5 (by
    have h2 : correlateErrors dbC5 nameC5 ((errsC5.drop 20).take 20)
        = [corrC5] := by rfl
    rw [perform_correlation_analysis, h2, List.mergeSort_singleton]
    exact List.mem_singleton.mpr rfl)⟩

/-- Witness for `fetch_current_logs_chain_spec` at concrete inputs. -/
theorem fetch_current_logs_chain_spec_witness :
    (fetch_current_logs (fun e : List Char => e) (fun _ => 0)
        (Except.ok [ "a".toList]) (Except.error ()) [] none none).2
      = [LogSource.ws]
    ∧ (fetch_current_logs (fun e : List Char => e) (fun _ => 0)
        (Except.error ()) (Except.ok []) [Except.error ()] none none).1
      = [] :=
  ⟨(fetch_current_logs_chain_spec (fun e : List Char => e) (fun _ => 0)
      (Except.ok [ "a".toList]) (Except.error ()) [] none none).1
      [ "a".toList] rfl (by decide),
   (fetch_current_logs_chain_spec (fun e : List Char => e) (fun _ => 0)
      (Except.error ()) (Except.ok []) [Except.error ()] none none).2.2
      (Or.inl rfl) (Or.inr rfl)
      (fun fr hfr => by
        rw [List.mem_singleton] at hfr
        exact Or.inl hfr)⟩

/-- C7 counterexample: on a record with `timestamp` 100 and no
`first_occurred` key, the decoder emits `first_occurred = some 100` — the
absent key defaults to the record's timestamp, it is not omitted. -/
theorem ws_first_occurred_counterexample :
    (get_system_logs_ws_decode [ "error".toList] (fun _ => []) [rawC7]).map
        (fun e => e.first_occurred) = [some 100]
      ∧ some (100 : Int) ≠ (none : Option Int) := by
  constructor
  · rfl
  · decide

/-- C7 (amended): per decoded record — the level is the raw level
uppercased and must be among the requested levels; `source_location` joins
a two-element `[file, line]` source with a colon; the message is the head
of the raw message list and the remaining elements are the context; the
timestamp falls back to «now» exactly when the raw epoch is absent or
zero; and `first_occurred` defaults to the record's timestamp epoch when
absent, being omitted exactly when that defaulted value is zero.  The full
decode is the per-record decode flat-mapped over the response. -/
theorem ws_decode_spec (levels : List (List Char))
    (reprOf : List (List Char) → List Char) (r : RawWsEntry) :
    (get_system_logs_ws_decode levels reprOf [r] ≠ []
      ↔ upperStr (r.level.getD ( "error".toList)) ∈ levels.map upperStr)
    ∧ (∀ e ∈ get_system_logs_ws_decode levels reprOf [r],
        e.level = upperStr (r.level.getD ( "error".toList))
        ∧ e.level ∈ levels.map upperStr
        ∧ e.source = r.name
        ∧ (∀ f l rest2, r.source = some (f :: l :: rest2) →
            e.source_location = f ++ ( ":".toList) ++ l)
        ∧ e.message = r.message.headD []
        ∧ e.context = r.message.drop 1
        ∧ (r.timestamp.getD 0 = 0 → e.timestamp = WsTime.now)
        ∧ (r.timestamp.getD 0 ≠ 0 →
            e.timestamp = WsTime.epoch (r.timestamp.getD 0))
        ∧ (r.first_occurred.getD (r.timestamp.getD 0) = 0 →
            e.first_occurred = none)
        ∧ (r.first_occurred.getD (r.timestamp.getD 0) ≠ 0 →
            e.first_occurred
              = some (r.first_occurred.getD (r.timestamp.getD 0))))
    ∧ ∀ raws, get_system_logs_ws_decode levels reprOf raws
        = raws.flatMap (fun x => get_system_logs_ws_decode levels reprOf [x]) := by
  refine ⟨?_, ?_, ?_⟩
  · rw [get_system_logs_ws_decode, get_system_logs_ws_decode, List.append_nil]
    by_cases hmem : upperStr (r.level.getD ( "error".toList))
        ∈ levels.map upperStr
    · rw [if_pos (by simpa using hmem)]
      simpa using hmem
    · rw [if_neg (by simpa using hmem)]
      simpa using hmem
  · intro e he
    rw [get_system_logs_ws_decode, get_system_logs_ws_decode,
      List.append_nil] at he
    by_cases hmem : upperStr (r.level.getD ( "error".toList))
        ∈ levels.map upperStr
    swap
    · rw [if_neg (by simpa using hmem)] at he
      simp at he
    · rw [if_pos (by simpa using hmem)] at he
      rw [List.mem_singleton] at he
      subst he
      refine ⟨rfl, hmem, rfl, ?_, rfl, ?_, ?_, ?_, ?_, ?_⟩
      · intro f l rest2 hsrc
        simp [decodeWsEntry, hsrc]
      · rw [decodeWsEntry]
        by_cases hlen : 1 < r.message.length
        · rw [if_pos hlen]
        · rw [if_neg hlen]
          rw [List.drop_eq_nil_of_le (by omega)]
      · intro h0
        simp [decodeWsEntry, h0]
      · intro h0
        simp [decodeWsEntry, h0]
      · intro h0
        simp [decodeWsEntry, h0]
      · intro h0
        simp [decodeWsEntry, h0]
  · intro raws
    induction raws with
    | nil => rfl
    | cons x xs ih =>
      rw [get_system_logs_ws_decode, ih, List.flatMap_cons,
        get_system_logs_ws_decode, get_system_logs_ws_decode, List.append_nil]

/-- Witness for `ws_decode_spec` at the concrete record `rawC7`. -/
theorem ws_decode_spec_witness :
    (decodeWsEntry (fun _ => []) rawC7)
        ∈ get_system_logs_ws_decode [ "error".toList] (fun _ => []) [rawC7]
      ∧ (decodeWsEntry (fun _ => []) rawC7).first_occurred = some 100 :=
  ⟨by decide,
    ((ws_decode_spec [ "error".toList] (fun _ => []) rawC7).2.1
        (decodeWsEntry (fun _ => []) rawC7)
        (by decide)).2.2.2.2.2.2.2.2.2 (by decide)⟩

